import Mathlib

/-!
GitHub stats generator — verified embedding of the core logic.

Shallow embedding of the pure core of `fetchGitHubStats.js`:

* `calculateStreak` (lines 220–270): current/max contribution streak over a
  list of `(date, contributionCount)` records.
* The language-ranking portion of `fetchLanguageData` (lines 157–180).
* The aggregation object built by `fetchGitHubStats` (lines 22–36).
* The contribution-totals mapping of `fetchContributionData` (lines 139–148).

Modelling conventions:

* Calendar dates are whole-day indices (`Int`).  The JS code parses day-level
  date strings, truncates the time of day with `setHours(0,0,0,0)` on both the
  entry date and "today", and then takes
  `Math.floor((today - dayDate) / 86400000)`; at day granularity that offset is
  exactly the difference of day indices, so entries carry `date : Int` and the
  clock reading is an explicit `today : Int` parameter.
* Counts from the API are non-negative integers, modelled as `Nat`.
* `x.f || default` on a JS number/object/array field is `Option.getD`:
  `none` models an absent (`undefined`) field.  A property access on an
  `undefined`/`null` object itself throws a `TypeError`, modelled as
  `Except.error`.
* JS `Array.prototype.sort` is stable (ES2019); both sorts in the source are
  embedded as stable insertion sorts with the comparator's order.
-/

/-- One entry of the contribution calendar: a day-index date and the number of
contributions recorded on that day. -/
structure ContributionDay where
  date : Int
  contributionCount : Nat
  deriving Repr, DecidableEq

/-- The result record of `calculateStreak`. -/
structure StreakSummary where
  current : Nat
  max : Nat
  deriving Repr, DecidableEq

/-- Stable insertion of a day into a date-ascending list: `x` stays behind
every element whose date is strictly earlier and goes in front of the first
element whose date is equal or later, matching a stable ascending sort by the
comparator `(a, b) => new Date(a.date) - new Date(b.date)`. -/
def insertByDate (x : ContributionDay) : List ContributionDay → List ContributionDay
  | [] => [x]
  | y :: rest => if x.date ≤ y.date then x :: y :: rest else y :: insertByDate x rest

/-- Stable ascending-by-date sort, the embedding of
`[...contributionDays].sort((a, b) => new Date(a.date) - new Date(b.date))`.
Earlier input entries precede later ones among equal dates. -/
def sortByDate : List ContributionDay → List ContributionDay
  | [] => []
  | x :: rest => insertByDate x (sortByDate rest)

/-- The backward scan of `calculateStreak` (source lines 236–254).  The JS loop
walks the sorted array from the last index down; here it consumes the
*reversed* sorted list.  `s` is the running `currentStreak`. -/
def currentStreakLoop (today : Int) : List ContributionDay → Nat → Nat
  | [], s => s
  | d :: rest, s =>
    let daysDiff : Int := today - d.date
    if d.contributionCount > 0 then
      if daysDiff ≤ (s : Int) + 1 then currentStreakLoop today rest (s + 1) else s
    else if daysDiff ≤ 1 then currentStreakLoop today rest s
    else s

/-- The forward scan of `calculateStreak` (source lines 257–264): running
counter `t` (`tempStreak`), accumulator `m` (`maxStreak`). -/
def maxStreakLoop : List ContributionDay → Nat → Nat → Nat
  | [], _, m => m
  | d :: rest, t, m =>
    if d.contributionCount > 0 then
      maxStreakLoop rest (t + 1) (Nat.max m (t + 1))
    else maxStreakLoop rest 0 m

/-- Embedding of `calculateStreak` (source lines 220–270).  `today` is the
truncated clock reading that the source obtains from `new Date()`. -/
def calculateStreak (today : Int) (contributionDays : List ContributionDay) :
    StreakSummary :=
  if contributionDays.isEmpty then { current := 0, max := 0 }
  else
    let sortedDays := sortByDate contributionDays
    { current := currentStreakLoop today sortedDays.reverse 0
      max := maxStreakLoop sortedDays 0 0 }

/-- `calculateStreak` never mutates the array it is handed: the source sorts a
spread copy (`[...contributionDays].sort(...)`, line 224) and only reads the
entries.  This variant of the embedding additionally returns the final
contents of the caller's array, tracking every write the JS function performs
on it — there are none, so the input contents are returned unchanged. -/
def calculateStreakMut (today : Int) (contributionDays : List ContributionDay) :
    StreakSummary × List ContributionDay :=
  (calculateStreak today contributionDays, contributionDays)

/-- Positivity test used throughout: `contributionCount > 0` as the JS
conditionals test it. -/
def posDay (d : ContributionDay) : Bool := 0 < d.contributionCount

/-- Length of the leading all-positive run of a list — for the reversed sorted
list this is the run of most-recent positive entries. -/
def headRunLen (l : List ContributionDay) : Nat := (l.takeWhile posDay).length

/-- Specification-level reading of the max-streak pass: for a list it returns
`(h, m)` where `h` is the length of the run of positive-count entries at the
front and `m` the length of the longest run of positive-count entries
anywhere, runs being maximal blocks of list-consecutive entries. -/
def longestPosRun : List ContributionDay → Nat × Nat
  | [] => (0, 0)
  | d :: rest =>
    let hm := longestPosRun rest
    if 0 < d.contributionCount then (hm.1 + 1, Nat.max hm.2 (hm.1 + 1))
    else (0, hm.2)

/-- One step of the max-streak pass as a state transformer on
`(tempStreak, maxStreak)`. -/
def maxScanStep (tm : Nat × Nat) (d : ContributionDay) : Nat × Nat :=
  if 0 < d.contributionCount then (tm.1 + 1, Nat.max tm.2 (tm.1 + 1))
  else (0, tm.2)

/-- The max-streak pass as a left fold over its `(tempStreak, maxStreak)`
state. -/
def maxScan (l : List ContributionDay) (tm : Nat × Nat) : Nat × Nat :=
  l.foldl maxScanStep tm

/-! ## Language ranking (`fetchLanguageData`, lines 157–180) -/

/-- One entry of the ranked language list.  The source reports
`(count / total * 100).toFixed(1)`, a decimal string with one fractional
digit; it is embedded as that percentage in tenths of a percent
(`"38.5"` ↦ `385`), with `toFixed`'s round-half-up rounding made exact over
the rationals. -/
structure LangStat where
  name : String
  percentageTenths : Nat
  deriving Repr, DecidableEq

/-- `languageCounts[repo.language] = (languageCounts[repo.language] || 0) + 1`
on a JS object: bump the count of `l` in the insertion-ordered association
list, or append `(l, 1)` if `l` is a fresh key. -/
def bumpLang (l : String) : List (String × Nat) → List (String × Nat)
  | [] => [(l, 1)]
  | (n, c) :: rest => if n = l then (n, c + 1) :: rest else (n, c) :: bumpLang l rest

/-- One iteration of the counting loop (lines 159–163): a repository with a
primary language bumps that language's count, one without (`if (repo.language)`
false) leaves the counts untouched. -/
def countStep (acc : List (String × Nat)) : Option String → List (String × Nat)
  | none => acc
  | some l => bumpLang l acc

/-- The counting loop of `fetchLanguageData` (lines 159–163): repositories are
carried as their nullable primary language; `none` (no primary language) is
skipped.  The resulting association list is in first-encounter order, as
`Object.entries` of a string-keyed JS object. -/
def languageCounts (repos : List (Option String)) : List (String × Nat) :=
  repos.foldl countStep []

/-- Stable insertion for the descending-by-count sort: `x` goes in front of the
first element whose count is `≤ x`'s, so among equal counts the earlier
element keeps its place. -/
def insertByCount (x : String × Nat) : List (String × Nat) → List (String × Nat)
  | [] => [x]
  | y :: rest => if x.2 ≥ y.2 then x :: y :: rest else y :: insertByCount x rest

/-- Stable descending-by-count sort, the embedding of
`.sort((a, b) => b[1] - a[1])` on the entries list. -/
def sortByCount : List (String × Nat) → List (String × Nat)
  | [] => []
  | x :: rest => insertByCount x (sortByCount rest)

/-- `Object.entries(languageCounts).sort((a, b) => b[1] - a[1]).slice(0, 5)`
(lines 165–168). -/
def rankedLanguages (repos : List (Option String)) : List (String × Nat) :=
  (sortByCount (languageCounts repos)).take 5

/-- `(count / total * 100).toFixed(1)` in tenths of a percent:
round-half-up of `1000 * count / total`. -/
def roundTenths (count total : Nat) : Nat :=
  (2000 * count + total) / (2 * total)

/-- `sortedLanguages.reduce((sum, lang) => sum + lang.count, 0)` (line 174). -/
def sumCounts (l : List (String × Nat)) : Nat :=
  l.foldl (fun sum lang => sum + lang.2) 0

/-- Association-list lookup with default `0`, the reading of
`languageCounts[lang] || 0` on the JS object. -/
def lookupCount : List (String × Nat) → String → Nat
  | [], _ => 0
  | (n, c) :: rest, l => if n = l then c else lookupCount rest l

/-- Embedding of the pure part of `fetchLanguageData` (lines 157–180): rank
the languages, and when the ranking is non-empty express each kept language's
count as a share of the sum of the kept counts. -/
def fetchLanguageData (repos : List (Option String)) : List LangStat :=
  let sortedLanguages := rankedLanguages repos
  if sortedLanguages.isEmpty then []
  else
    let total := sumCounts sortedLanguages
    sortedLanguages.map fun lang =>
      { name := lang.1
        percentageTenths := if total > 0 then roundTenths lang.2 total else 0 }

/-! ## Aggregation (`fetchGitHubStats`, lines 22–36) and contribution totals
(`fetchContributionData`, lines 139–148) -/

/-- The fields of the `fetchUserData` sub-result that the aggregator reads.
`none` models a missing (`undefined`) field, defaulted by `|| 0`. -/
structure UserStats where
  followers : Option Nat
  following : Option Nat
  public_repos : Option Nat
  deriving Repr, DecidableEq

/-- The `fetchRepositoryStats` sub-result. -/
structure RepoStats where
  totalStars : Option Nat
  totalForks : Option Nat
  deriving Repr, DecidableEq

/-- The `fetchContributionData` sub-result as the aggregator consumes it. -/
structure ContribStats where
  totalCommits : Option Nat
  totalIssues : Option Nat
  totalPRs : Option Nat
  streak : Option StreakSummary
  contributionDays : Option (List ContributionDay)
  deriving Repr, DecidableEq

/-- The summary record returned by `fetchGitHubStats` (lines 22–36).
`fetchedAt` carries the `new Date().toISOString()` string. -/
structure StatsSummary where
  username : String
  followers : Nat
  following : Nat
  publicRepos : Nat
  totalStars : Nat
  totalForks : Nat
  totalIssues : Nat
  totalPRs : Nat
  totalCommits : Nat
  contributionStreak : StreakSummary
  contributionDays : List ContributionDay
  languages : List LangStat
  fetchedAt : String
  deriving Repr, DecidableEq

/-- Embedding of the summary construction in `fetchGitHubStats` (lines 22–36),
taking the four already-joined sub-results.  Each sub-result object is
`Option`-wrapped: `none` models the value `undefined`/`null`, on which the
source's property accesses (`userStats.followers`, `repoStats.totalStars`,
`contributionStats.totalIssues`, …) throw a `TypeError` — embedded as
`Except.error`, thrown at the first faulting access in the source's
evaluation order.  `languageStats` is only used as `languageStats || []`
(no property access), so its absence does not throw.  `now` is the clock
reading the source takes at line 35. -/
def fetchGitHubStats (username now : String) (userStats : Option UserStats)
    (repoStats : Option RepoStats) (contributionStats : Option ContribStats)
    (languageStats : Option (List LangStat)) : Except String StatsSummary :=
  match userStats with
  | none => .error "TypeError: Cannot read properties of undefined"
  | some us =>
    match repoStats with
    | none => .error "TypeError: Cannot read properties of undefined"
    | some rs =>
      match contributionStats with
      | none => .error "TypeError: Cannot read properties of undefined"
      | some cs =>
        .ok
          { username := username
            followers := us.followers.getD 0
            following := us.following.getD 0
            publicRepos := us.public_repos.getD 0
            totalStars := rs.totalStars.getD 0
            totalForks := rs.totalForks.getD 0
            totalIssues := cs.totalIssues.getD 0
            totalPRs := cs.totalPRs.getD 0
            totalCommits := cs.totalCommits.getD 0
            contributionStreak := cs.streak.getD { current := 0, max := 0 }
            contributionDays := cs.contributionDays.getD []
            languages := languageStats.getD []
            fetchedAt := now }

/-- The `contributionsCollection` shape of the GraphQL response consumed by
`fetchContributionData` (lines 90–148); `weeks` is the nested list of
`contributionDays`. -/
structure ContributionsCollection where
  totalCommitContributions : Nat
  totalIssueContributions : Nat
  totalPullRequestContributions : Nat
  totalPullRequestReviewContributions : Nat
  weeks : List (List ContributionDay)
  deriving Repr, DecidableEq

/-- The record `fetchContributionData` returns (lines 139–147). -/
structure ContribData where
  totalCommits : Nat
  totalIssues : Nat
  totalPRs : Nat
  streak : StreakSummary
  contributionDays : List ContributionDay
  deriving Repr, DecidableEq

/-- Embedding of the pure tail of `fetchContributionData` (lines 133–148):
flatten the weeks, compute the streak, and assemble the totals;
`totalPRs` sums authored PR contributions and PR review contributions. -/
def fetchContributionData (today : Int) (c : ContributionsCollection) :
    ContribData :=
  let allDays := c.weeks.flatMap (fun week => week)
  { totalCommits := c.totalCommitContributions
    totalIssues := c.totalIssueContributions
    totalPRs := c.totalPullRequestContributions + c.totalPullRequestReviewContributions
    streak := calculateStreak today allDays
    contributionDays := allDays }

/-- Erase the timestamp field, for comparisons that exclude `fetchedAt`. -/
def withoutFetchedAt (s : StatsSummary) : StatsSummary := { s with fetchedAt := "" }

/-! ## Concrete inputs used by the testable properties -/

/-- Repository list realizing the language counts
`{Go: 5, Python: 3, JS: 3, Rust: 1, C: 1, Zig: 1}` in that encounter order,
with two no-primary-language repositories interleaved. -/
def demoRepos : List (Option String) :=
  [some "Go", some "Go", none, some "Go", some "Go", some "Go",
   some "Python", some "Python", some "Python",
   some "JS", some "JS", none, some "JS",
   some "Rust", some "C", some "Zig"]

/-- Yesterday three contributions, today none (dates as day indices with
"today" = 100). -/
def graceDays : List ContributionDay := [⟨99, 3⟩, ⟨100, 0⟩]

/-- A historical run of ten positive days, nine zero days, then two positive
days ending today (= day 100). -/
def historyDays : List ContributionDay :=
  [⟨80, 1⟩, ⟨81, 1⟩, ⟨82, 1⟩, ⟨83, 1⟩, ⟨84, 1⟩, ⟨85, 1⟩, ⟨86, 1⟩, ⟨87, 1⟩,
   ⟨88, 1⟩, ⟨89, 1⟩, ⟨90, 0⟩, ⟨91, 0⟩, ⟨92, 0⟩, ⟨93, 0⟩, ⟨94, 0⟩, ⟨95, 0⟩,
   ⟨96, 0⟩, ⟨97, 0⟩, ⟨98, 0⟩, ⟨99, 1⟩, ⟨100, 2⟩]

/-- Two entries dated yesterday (one positive, one zero — duplicate dates are
admitted by the data model) and a positive entry dated today (= day 100). -/
def duplicateDays : List ContributionDay := [⟨99, 1⟩, ⟨99, 0⟩, ⟨100, 1⟩]

/-! ## Helper lemmas -/

theorem insertByDate_perm (x : ContributionDay) (l : List ContributionDay) :
    (insertByDate x l).Perm (x :: l) := by
  induction l with
  | nil => simp [insertByDate]
  | cons y rest ih =>
    simp only [insertByDate]
    split
    · exact List.Perm.refl _
    · exact (ih.cons y).trans (List.Perm.swap x y rest)

theorem sortByDate_perm (l : List ContributionDay) : (sortByDate l).Perm l := by
  induction l with
  | nil => simp [sortByDate]
  | cons x rest ih =>
    simp only [sortByDate]
    exact (insertByDate_perm x (sortByDate rest)).trans (ih.cons x)

theorem longestRun_fst_le_snd (l : List ContributionDay) :
    (longestPosRun l).1 ≤ (longestPosRun l).2 := by
  induction l with
  | nil => simp [longestPosRun]
  | cons d rest ih =>
    by_cases h : 0 < d.contributionCount
    · simp only [longestPosRun, if_pos h]
      simp only [Nat.max_def]
      split_ifs <;> omega
    · simp only [longestPosRun, if_neg h]
      omega

theorem maxStreakLoop_eq (l : List ContributionDay) :
    ∀ t m : Nat, t ≤ m →
      maxStreakLoop l t m =
        Nat.max m (Nat.max (t + (longestPosRun l).1) (longestPosRun l).2) := by
  induction l with
  | nil =>
    intro t m htm
    simp only [maxStreakLoop, longestPosRun]
    simp only [Nat.max_def]
    split_ifs <;> omega
  | cons d rest ih =>
    intro t m htm
    by_cases h : 0 < d.contributionCount
    · simp only [maxStreakLoop, longestPosRun, if_pos h]
      rw [ih (t + 1) (Nat.max m (t + 1)) (Nat.le_max_right m (t + 1))]
      simp only [Nat.max_def]
      split_ifs <;> omega
    · simp only [maxStreakLoop, longestPosRun, if_neg h]
      rw [ih 0 m (Nat.zero_le m)]
      have hfs := longestRun_fst_le_snd rest
      simp only [Nat.max_def]
      split_ifs <;> omega

theorem calculateStreak_max_eq (today : Int) (days : List ContributionDay) :
    (calculateStreak today days).max = (longestPosRun (sortByDate days)).2 := by
  cases days with
  | nil => rfl
  | cons d rest =>
    show maxStreakLoop (sortByDate (d :: rest)) 0 0 = _
    rw [maxStreakLoop_eq (sortByDate (d :: rest)) 0 0 (Nat.le_refl 0)]
    have hfs := longestRun_fst_le_snd (sortByDate (d :: rest))
    simp only [Nat.max_def]
    split_ifs <;> omega

theorem headRunLen_cons (d : ContributionDay) (rest : List ContributionDay) :
    headRunLen (d :: rest) =
      if 0 < d.contributionCount then headRunLen rest + 1 else 0 := by
  by_cases h : 0 < d.contributionCount <;>
    simp [headRunLen, List.takeWhile_cons, posDay, h]

theorem currentStreakLoop_le_headRun (today : Int) :
    ∀ (l : List ContributionDay) (s : Nat),
      (∀ d ∈ l, d.contributionCount = 0 → 2 ≤ today - d.date) →
      currentStreakLoop today l s ≤ s + headRunLen l := by
  intro l
  induction l with
  | nil => intro s h; simp [currentStreakLoop, headRunLen]
  | cons d rest ih =>
    intro s h
    rw [headRunLen_cons]
    by_cases hp : 0 < d.contributionCount
    · by_cases hle : today - d.date ≤ (s : Int) + 1
      · simp only [currentStreakLoop, if_pos hp, if_pos hle]
        have hrest : ∀ e ∈ rest, e.contributionCount = 0 → 2 ≤ today - e.date :=
          fun e he => h e (List.mem_cons_of_mem d he)
        have := ih (s + 1) hrest
        omega
      · simp only [currentStreakLoop, if_pos hp, if_neg hle, if_pos hp]
        omega
    · have hz : d.contributionCount = 0 := Nat.eq_zero_of_not_pos hp
      have h2 : 2 ≤ today - d.date := h d (List.mem_cons_self d rest) hz
      have hgt : ¬ today - d.date ≤ 1 := by omega
      simp only [currentStreakLoop, if_neg hp, if_neg hgt, if_neg hp]
      omega

theorem maxStreakLoop_eq_maxScan :
    ∀ (l : List ContributionDay) (t m : Nat),
      maxStreakLoop l t m = (maxScan l (t, m)).2 := by
  intro l
  induction l with
  | nil => intro t m; rfl
  | cons d rest ih =>
    intro t m
    by_cases h : 0 < d.contributionCount <;>
      simp only [maxStreakLoop, maxScan, List.foldl_cons, maxScanStep, if_pos,
        if_neg, h, ite_true, ite_false, reduceIte] <;>
      exact ih _ _

theorem maxScan_fst_reverse (l : List ContributionDay) :
    (maxScan l.reverse (0, 0)).1 = headRunLen l := by
  induction l with
  | nil => rfl
  | cons d rest ih =>
    rw [headRunLen_cons]
    have : (d :: rest).reverse = rest.reverse ++ [d] := by simp
    rw [this]
    show (List.foldl maxScanStep (0, 0) (rest.reverse ++ [d])).1 = _
    rw [List.foldl_append]
    by_cases h : 0 < d.contributionCount <;>
      simp [maxScanStep, h, maxScan] at ih ⊢ <;> omega

theorem maxScan_fst_le_snd :
    ∀ (l : List ContributionDay) (tm : Nat × Nat), tm.1 ≤ tm.2 →
      (maxScan l tm).1 ≤ (maxScan l tm).2 := by
  intro l
  induction l with
  | nil => intro tm h; exact h
  | cons d rest ih =>
    intro tm h
    show (List.foldl maxScanStep (maxScanStep tm d) rest).1 ≤ _
    by_cases hp : 0 < d.contributionCount
    · refine ih (maxScanStep tm d) ?_
      simp only [maxScanStep, if_pos hp]
      simp only [Nat.max_def]
      split_ifs <;> omega
    · refine ih (maxScanStep tm d) ?_
      simp only [maxScanStep, if_neg hp]
      exact Nat.zero_le _

theorem currentStreakLoop_le_countP (today : Int) :
    ∀ (l : List ContributionDay) (s : Nat),
      currentStreakLoop today l s ≤ s + l.countP posDay := by
  intro l
  induction l with
  | nil => intro s; simp [currentStreakLoop]
  | cons d rest ih =>
    intro s
    by_cases hp : 0 < d.contributionCount
    · by_cases hle : today - d.date ≤ (s : Int) + 1
      · simp only [currentStreakLoop, if_pos hp, if_pos hle]
        have := ih (s + 1)
        have hc : (d :: rest).countP posDay = rest.countP posDay + 1 := by
          simp [List.countP_cons, posDay, hp]
        rw [hc]
        omega
      · simp only [currentStreakLoop, if_pos hp, if_neg hle]
        omega
    · by_cases hskip : today - d.date ≤ 1
      · simp only [currentStreakLoop, if_neg hp, if_pos hskip]
        have := ih s
        have hc : (d :: rest).countP posDay = rest.countP posDay := by
          simp [List.countP_cons, posDay, hp]
        rw [hc]
        omega
      · simp only [currentStreakLoop, if_neg hp, if_neg hskip]
        omega

theorem longestPosRun_le_countP (l : List ContributionDay) :
    (longestPosRun l).1 ≤ l.countP posDay
      ∧ (longestPosRun l).2 ≤ l.countP posDay := by
  induction l with
  | nil => simp [longestPosRun]
  | cons d rest ih =>
    by_cases hp : 0 < d.contributionCount
    · have hc : (d :: rest).countP posDay = rest.countP posDay + 1 := by
        simp [List.countP_cons, posDay, hp]
      simp only [longestPosRun, if_pos hp]
      rw [hc]
      constructor
      · omega
      · simp only [Nat.max_def]
        split_ifs <;> omega
    · have hc : (d :: rest).countP posDay = rest.countP posDay := by
        simp [List.countP_cons, posDay, hp]
      simp only [longestPosRun, if_neg hp]
      rw [hc]
      constructor
      · omega
      · omega

theorem currentStreakLoop_allZero (today : Int) :
    ∀ (l : List ContributionDay) (s : Nat),
      (∀ d ∈ l, d.contributionCount = 0) → currentStreakLoop today l s = s := by
  intro l
  induction l with
  | nil => intro s _; rfl
  | cons d rest ih =>
    intro s h
    have hz : d.contributionCount = 0 := h d (List.mem_cons_self d rest)
    have hp : ¬ 0 < d.contributionCount := by omega
    have hrest : ∀ e ∈ rest, e.contributionCount = 0 :=
      fun e he => h e (List.mem_cons_of_mem d he)
    by_cases hskip : today - d.date ≤ 1
    · simp only [currentStreakLoop, if_neg hp, if_pos hskip]
      exact ih s hrest
    · simp only [currentStreakLoop, if_neg hp, if_neg hskip]

theorem maxStreakLoop_allZero :
    ∀ (l : List ContributionDay) (t m : Nat),
      (∀ d ∈ l, d.contributionCount = 0) → maxStreakLoop l t m = m := by
  intro l
  induction l with
  | nil => intro t m _; rfl
  | cons d rest ih =>
    intro t m h
    have hz : d.contributionCount = 0 := h d (List.mem_cons_self d rest)
    have hp : ¬ 0 < d.contributionCount := by omega
    simp only [maxStreakLoop, if_neg hp]
    exact ih 0 m (fun e he => h e (List.mem_cons_of_mem d he))

theorem insertByCount_perm (x : String × Nat) (l : List (String × Nat)) :
    (insertByCount x l).Perm (x :: l) := by
  induction l with
  | nil => simp [insertByCount]
  | cons y rest ih =>
    simp only [insertByCount]
    split
    · exact List.Perm.refl _
    · exact (ih.cons y).trans (List.Perm.swap x y rest)

theorem sortByCount_perm (l : List (String × Nat)) : (sortByCount l).Perm l := by
  induction l with
  | nil => simp [sortByCount]
  | cons x rest ih =>
    simp only [sortByCount]
    exact (insertByCount_perm x (sortByCount rest)).trans (ih.cons x)

theorem insertByCount_pairwise (x : String × Nat) (l : List (String × Nat))
    (h : l.Pairwise (fun a b => b.2 ≤ a.2)) :
    (insertByCount x l).Pairwise (fun a b => b.2 ≤ a.2) := by
  induction l with
  | nil => simp [insertByCount]
  | cons y rest ih =>
    rw [List.pairwise_cons] at h
    obtain ⟨hy, hrest⟩ := h
    simp only [insertByCount]
    by_cases hc : x.2 ≥ y.2
    · rw [if_pos hc]
      refine List.Pairwise.cons ?_ (List.Pairwise.cons hy hrest)
      intro z hz
      rcases List.mem_cons.mp hz with hz1 | hz2
      · subst hz1; exact hc
      · exact Nat.le_trans (hy z hz2) hc
    · rw [if_neg hc]
      refine List.Pairwise.cons ?_ (ih hrest)
      intro z hz
      rcases List.mem_cons.mp ((insertByCount_perm x rest).mem_iff.mp hz) with hz1 | hz2
      · subst hz1; omega
      · exact hy z hz2

theorem sortByCount_pairwise (l : List (String × Nat)) :
    (sortByCount l).Pairwise (fun a b => b.2 ≤ a.2) := by
  induction l with
  | nil => simp [sortByCount]
  | cons x rest ih =>
    simp only [sortByCount]
    exact insertByCount_pairwise x (sortByCount rest) ih

theorem filter_insertByCount (x : String × Nat) (l : List (String × Nat)) (c : Nat) :
    (insertByCount x l).filter (fun p => p.2 == c) =
      (x :: l).filter (fun p => p.2 == c) := by
  induction l with
  | nil => rfl
  | cons y rest ih =>
    simp only [insertByCount]
    by_cases hc : x.2 ≥ y.2
    · rw [if_pos hc]
    · rw [if_neg hc]
      by_cases hx : x.2 = c
      · have hy : ¬ y.2 = c := by omega
        simp [List.filter_cons, hx, hy, ih]
      · by_cases hy : y.2 = c <;> simp [List.filter_cons, hx, hy, ih]

theorem filter_sortByCount (l : List (String × Nat)) (c : Nat) :
    (sortByCount l).filter (fun p => p.2 == c) =
      l.filter (fun p => p.2 == c) := by
  induction l with
  | nil => rfl
  | cons x rest ih =>
    show ((insertByCount x (sortByCount rest)).filter _) = _
    rw [filter_insertByCount]
    by_cases hx : x.2 = c <;> simp [List.filter_cons, hx, ih]

theorem languageCounts_drop_none (pre post : List (Option String)) :
    languageCounts (pre ++ none :: post) = languageCounts (pre ++ post) := by
  simp [languageCounts, List.foldl_append, List.foldl_cons, countStep]

theorem lookupCount_bumpLang (acc : List (String × Nat)) (l lang : String) :
    lookupCount (bumpLang l acc) lang =
      lookupCount acc lang + (if l = lang then 1 else 0) := by
  induction acc with
  | nil => by_cases h : l = lang <;> simp [bumpLang, lookupCount, h]
  | cons p rest ih =>
    obtain ⟨n, cnt⟩ := p
    simp only [bumpLang]
    by_cases hn : n = l
    · rw [if_pos hn]
      simp only [lookupCount]
      by_cases hl : n = lang
      · rw [if_pos hl, if_pos hl, if_pos (hn.symm.trans hl)]
      · rw [if_neg hl, if_neg hl, if_neg (fun he => hl (hn.trans he))]
        omega
    · rw [if_neg hn]
      simp only [lookupCount]
      by_cases hl : n = lang
      · rw [if_pos hl, if_pos hl, if_neg (fun he => hn (hl.trans he.symm))]
        omega
      · rw [if_neg hl, if_neg hl]
        exact ih

theorem lookupCount_foldl (repos : List (Option String)) :
    ∀ (acc : List (String × Nat)) (lang : String),
      lookupCount (repos.foldl countStep acc) lang =
        lookupCount acc lang + repos.countP (fun r => r == some lang) := by
  induction repos with
  | nil => intro acc lang; simp
  | cons r rest ih =>
    intro acc lang
    cases r with
    | none =>
      simp only [List.foldl_cons, countStep]
      rw [ih acc lang]
      simp [List.countP_cons]
    | some l =>
      simp only [List.foldl_cons, countStep]
      rw [ih (bumpLang l acc) lang, lookupCount_bumpLang]
      by_cases hll : l = lang <;> simp [List.countP_cons, hll] <;> omega

theorem languageCounts_count (repos : List (Option String)) (lang : String) :
    lookupCount (languageCounts repos) lang =
      repos.countP (fun r => r == some lang) := by
  have h := lookupCount_foldl repos [] lang
  simpa [languageCounts, lookupCount] using h

theorem bumpLang_pos (l : String) (acc : List (String × Nat))
    (h : ∀ p ∈ acc, 1 ≤ p.2) : ∀ p ∈ bumpLang l acc, 1 ≤ p.2 := by
  induction acc with
  | nil =>
    intro p hp
    simp only [bumpLang, List.mem_singleton] at hp
    subst hp; exact Nat.le_refl 1
  | cons q rest ih =>
    obtain ⟨n, cnt⟩ := q
    intro p hp
    simp only [bumpLang] at hp
    by_cases hn : n = l
    · rw [if_pos hn] at hp
      rcases List.mem_cons.mp hp with hp1 | hp2
      · subst hp1; omega
      · exact h p (List.mem_cons_of_mem _ hp2)
    · rw [if_neg hn] at hp
      rcases List.mem_cons.mp hp with hp1 | hp2
      · subst hp1; exact h (n, cnt) (List.mem_cons_self _ _)
      · exact ih (fun q hq => h q (List.mem_cons_of_mem _ hq)) p hp2

theorem languageCounts_pos (repos : List (Option String)) :
    ∀ p ∈ languageCounts repos, 1 ≤ p.2 := by
  have hgen : ∀ (rs : List (Option String)) (acc : List (String × Nat)),
      (∀ p ∈ acc, 1 ≤ p.2) → ∀ p ∈ rs.foldl countStep acc, 1 ≤ p.2 := by
    intro rs
    induction rs with
    | nil => intro acc h p hp; exact h p hp
    | cons r rest ih =>
      intro acc h p hp
      cases r with
      | none => exact ih acc h p hp
      | some l => exact ih (bumpLang l acc) (bumpLang_pos l acc h) p hp
  intro p hp
  exact hgen repos [] (by simp) p hp

theorem sumCounts_foldl (l : List (String × Nat)) :
    ∀ n : Nat, l.foldl (fun sum lang => sum + lang.2) n = n + (l.map Prod.snd).sum := by
  induction l with
  | nil => intro n; simp
  | cons x rest ih =>
    intro n
    simp only [List.foldl_cons, List.map_cons, List.sum_cons]
    rw [ih (n + x.2)]
    omega

theorem sumCounts_pos (l : List (String × Nat)) (hne : l ≠ [])
    (h : ∀ p ∈ l, 1 ≤ p.2) : 0 < sumCounts l := by
  cases l with
  | nil => exact absurd rfl hne
  | cons x rest =>
    have hx : 1 ≤ x.2 := h x (List.mem_cons_self _ _)
    simp only [sumCounts]
    rw [sumCounts_foldl]
    simp only [List.map_cons, List.sum_cons]
    omega

theorem fetchLanguageData_eq (repos : List (Option String)) :
    fetchLanguageData repos =
      (rankedLanguages repos).map
        (fun p => { name := p.1,
                    percentageTenths :=
                      roundTenths p.2 (sumCounts (rankedLanguages repos)) }) := by
  by_cases h : (rankedLanguages repos).isEmpty = true
  · have he : rankedLanguages repos = [] := List.isEmpty_iff.mp h
    simp [fetchLanguageData, he]
  · have hne : rankedLanguages repos ≠ [] := by
      intro he; rw [he] at h; exact h rfl
    have hmem : ∀ p ∈ rankedLanguages repos, 1 ≤ p.2 := by
      intro p hp
      have h1 : p ∈ sortByCount (languageCounts repos) := List.mem_of_mem_take hp
      have h2 : p ∈ languageCounts repos := (sortByCount_perm _).mem_iff.mp h1
      exact languageCounts_pos repos p h2
    have htot : 0 < sumCounts (rankedLanguages repos) := sumCounts_pos _ hne hmem
    simp only [fetchLanguageData, h, Bool.false_eq_true, if_false]
    exact List.map_congr_left (fun p hp => by simp [if_pos htot])

/-! ## Claims -/

/-- C3: for the empty input list, `calculateStreak` returns the summary
`{ current := 0, max := 0 }`, whatever the current date is. -/
theorem spec2proof_C3 : ∀ today : Int,
    calculateStreak today [] = { current := 0, max := 0 } :=
  fun _ => rfl

/-- C9: the PR count reported by `fetchContributionData` is the sum of the
authored pull-request contribution count and the pull-request review
contribution count supplied by the upstream source. -/
theorem spec2proof_C9 : ∀ (today : Int) (c : ContributionsCollection),
    (fetchContributionData today c).totalPRs =
      c.totalPullRequestContributions + c.totalPullRequestReviewContributions :=
  fun _ _ => rfl

/-- C7: `calculateStreak` does not mutate its input.  In the effect-tracking
embedding `calculateStreakMut`, which returns the final contents of the
caller's array alongside the summary (the source sorts a spread copy and
performs no write on the argument), the array contents come back unchanged
for every input, and the summary is a fresh value equal to the pure
function's result. -/
theorem spec2proof_C7 : ∀ (today : Int) (days : List ContributionDay),
    (calculateStreakMut today days).2 = days ∧
      (calculateStreakMut today days).1 = calculateStreak today days :=
  fun _ _ => ⟨rfl, rfl⟩

/-- C8: the aggregator is deterministic in its sub-results — two calls with
identical sub-results agree on every field of the summary except the
`fetchedAt` timestamp (here: they are equal after erasing `fetchedAt`), even
when the two clock readings differ. -/
theorem spec2proof_C8 : ∀ (username now₁ now₂ : String) (us : Option UserStats)
    (rs : Option RepoStats) (cs : Option ContribStats)
    (ls : Option (List LangStat)),
    (fetchGitHubStats username now₁ us rs cs ls).map withoutFetchedAt =
      (fetchGitHubStats username now₂ us rs cs ls).map withoutFetchedAt := by
  intro username now₁ now₂ us rs cs ls
  cases us <;> cases rs <;> cases cs <;> rfl

/-- C5, counterexample: with the contribution sub-result entirely absent
(`none`, the value `undefined`) and all other sub-results present, the
aggregator does not produce a defaulted summary — the property access
`contributionStats.totalIssues` throws, so the result is an error, refuting
"all of its derived fields default to zero or the empty collection without
throwing". -/
theorem spec2proof_C5_counterexample :
    fetchGitHubStats "octocat" "2026-10-11T00:00:00.000Z"
        (some ⟨some 10, some 7, some 42⟩) (some ⟨some 5, some 2⟩) none
        (some []) =
      Except.error "TypeError: Cannot read properties of undefined" := rfl

/-- C5, amended: when the contribution sub-result is *present*, each of its
fields that is absent defaults to zero / the empty collection / the zero
streak without throwing, and the summary is fully populated; when the
contribution sub-result is entirely absent, the aggregator instead throws a
`TypeError` (whatever the other sub-results are), which propagates as a hard
failure. -/
theorem spec2proof_C5 : ∀ (username now : String) (us : UserStats)
    (rs : RepoStats) (cs : ContribStats) (ls : Option (List LangStat)),
    (fetchGitHubStats username now (some us) (some rs) (some cs) ls =
      Except.ok
        { username := username
          followers := us.followers.getD 0
          following := us.following.getD 0
          publicRepos := us.public_repos.getD 0
          totalStars := rs.totalStars.getD 0
          totalForks := rs.totalForks.getD 0
          totalIssues := cs.totalIssues.getD 0
          totalPRs := cs.totalPRs.getD 0
          totalCommits := cs.totalCommits.getD 0
          contributionStreak := cs.streak.getD { current := 0, max := 0 }
          contributionDays := cs.contributionDays.getD []
          languages := ls.getD []
          fetchedAt := now })
    ∧ ∀ (us₂ : Option UserStats) (rs₂ : Option RepoStats)
        (ls₂ : Option (List LangStat)),
        fetchGitHubStats username now us₂ rs₂ none ls₂ =
          Except.error "TypeError: Cannot read properties of undefined" := by
  intro username now us rs cs ls
  refine ⟨rfl, ?_⟩
  intro us₂ rs₂ ls₂
  cases us₂ <;> cases rs₂ <;> rfl

/-- C1: the current streak is computed by scanning the date-ascending-sorted
day list from the most recent entry backwards; a positive-count entry
increments the streak exactly when its whole-day offset from today is at most
`currentStreak + 1` and otherwise stops the scan; a zero-count entry is
skipped exactly when its offset is at most 1 and otherwise stops the scan;
and on the two-day input "yesterday 3, today 0" the current streak is 1. -/
theorem spec2proof_C1 :
    (∀ (today : Int) (days : List ContributionDay),
        (calculateStreak today days).current =
          currentStreakLoop today (sortByDate days).reverse 0)
    ∧ (∀ (today : Int) (d : ContributionDay) (rest : List ContributionDay)
          (s : Nat), 0 < d.contributionCount →
          (today - d.date ≤ (s : Int) + 1 →
            currentStreakLoop today (d :: rest) s =
              currentStreakLoop today rest (s + 1))
          ∧ ((s : Int) + 1 < today - d.date →
            currentStreakLoop today (d :: rest) s = s))
    ∧ (∀ (today : Int) (d : ContributionDay) (rest : List ContributionDay)
          (s : Nat), d.contributionCount = 0 →
          (today - d.date ≤ 1 →
            currentStreakLoop today (d :: rest) s =
              currentStreakLoop today rest s)
          ∧ (1 < today - d.date →
            currentStreakLoop today (d :: rest) s = s))
    ∧ (calculateStreak 100 graceDays).current = 1 := by
  refine ⟨?_, ?_, ?_, by decide⟩
  · intro today days
    cases days with
    | nil => rfl
    | cons d rest => rfl
  · intro today d rest s h
    constructor
    · intro hle
      simp [currentStreakLoop, h, hle]
    · intro hgt
      simp [currentStreakLoop, h, not_le.mpr hgt]
  · intro today d rest s h
    constructor
    · intro hle
      simp [currentStreakLoop, h, hle]
    · intro hgt
      simp [currentStreakLoop, h, not_le.mpr hgt]

/-- C1, witness: the four scan rules of `spec2proof_C1` instantiated at
concrete entries with today = 100 — a positive entry in range (offset 0),
a positive entry out of range (offset 3), a zero entry inside the grace
window (offset 0), a zero entry beyond it (offset 2). -/
theorem spec2proof_C1_witness :
    currentStreakLoop 100 [⟨100, 5⟩] 0 = currentStreakLoop 100 [] 1
    ∧ currentStreakLoop 100 [⟨97, 5⟩] 0 = 0
    ∧ currentStreakLoop 100 [⟨100, 0⟩] 0 = currentStreakLoop 100 [] 0
    ∧ currentStreakLoop 100 [⟨98, 0⟩] 0 = 0 :=
  ⟨(spec2proof_C1.2.1 100 ⟨100, 5⟩ [] 0 (by decide)).1 (by decide),
   (spec2proof_C1.2.1 100 ⟨97, 5⟩ [] 0 (by decide)).2 (by decide),
   (spec2proof_C1.2.2.1 100 ⟨100, 0⟩ [] 0 (by decide)).1 (by decide),
   (spec2proof_C1.2.2.1 100 ⟨98, 0⟩ [] 0 (by decide)).2 (by decide)⟩

/-- C4, counterexample: on the repository list realizing the counts
`{Go: 5, Python: 3, JS: 3, Rust: 1, C: 1, Zig: 1}` the kept languages are
Go, Python, JS, Rust, C as claimed, but the five reported one-decimal
percentages (38.5, 23.1, 23.1, 7.7, 7.7 — here in tenths) sum to 100.1, not
exactly 100.0. -/
theorem spec2proof_C4_counterexample :
    (fetchLanguageData demoRepos).map LangStat.name =
      ["Go", "Python", "JS", "Rust", "C"]
    ∧ ((fetchLanguageData demoRepos).map LangStat.percentageTenths).sum ≠ 1000 := by
  constructor
  · decide
  · decide

/-- C4, amended: the ranking groups repositories by primary language and
counts repositories per language (the count looked up for each language is
the number of repositories carrying it), repositories with no primary
language are excluded from the counts (and hence from the percentage base),
the sort is descending by count and stable (a permutation, pairwise
descending, and for every count value the tied entries keep their original
encounter order), at most 5 languages are kept, and each kept language's
percentage is its count's share of the sum of the kept counts rounded to one
decimal place.  On the counts
`{Go: 5, Python: 3, JS: 3, Rust: 1, C: 1, Zig: 1}` the kept set is
Go, Python, JS, Rust, C and the reported percentages sum to 100.1 (not
100.0, as rounding to one decimal makes the shares sum above 100). -/
theorem spec2proof_C4 :
    (∀ (repos : List (Option String)) (lang : String),
        lookupCount (languageCounts repos) lang =
          repos.countP (fun r => r == some lang))
    ∧ (∀ pre post : List (Option String),
        languageCounts (pre ++ none :: post) = languageCounts (pre ++ post))
    ∧ (∀ l : List (String × Nat), (sortByCount l).Perm l)
    ∧ (∀ l : List (String × Nat),
        (sortByCount l).Pairwise (fun a b => b.2 ≤ a.2))
    ∧ (∀ (l : List (String × Nat)) (c : Nat),
        (sortByCount l).filter (fun p => p.2 == c) =
          l.filter (fun p => p.2 == c))
    ∧ (∀ repos : List (Option String),
        (rankedLanguages repos).length ≤ 5
        ∧ fetchLanguageData repos =
            (rankedLanguages repos).map
              (fun p => { name := p.1,
                          percentageTenths :=
                            roundTenths p.2 (sumCounts (rankedLanguages repos)) }))
    ∧ ((fetchLanguageData demoRepos).map LangStat.name =
        ["Go", "Python", "JS", "Rust", "C"]
      ∧ ((fetchLanguageData demoRepos).map LangStat.percentageTenths).sum = 1001) :=
  ⟨languageCounts_count,
   languageCounts_drop_none,
   sortByCount_perm,
   sortByCount_pairwise,
   filter_sortByCount,
   fun repos => ⟨List.length_take_le 5 _, fetchLanguageData_eq repos⟩,
   by decide, by decide⟩

/-- C10: `calculateStreak` returns (non-negative, by type) values with
`current` at most the number of positive-count entries — hence at most the
claimed "positives plus skipped zeros" — and at most the list length, `max`
at most the number of positive-count entries, and every all-zero-count list
(the empty one included) yields `{ current := 0, max := 0 }`. -/
theorem spec2proof_C10 : ∀ (today : Int) (days : List ContributionDay),
    ((calculateStreak today days).current ≤ days.countP posDay
      ∧ (calculateStreak today days).current ≤ days.length
      ∧ (calculateStreak today days).max ≤ days.countP posDay)
    ∧ ((∀ d ∈ days, d.contributionCount = 0) →
        calculateStreak today days = { current := 0, max := 0 }) := by
  intro today days
  constructor
  · cases days with
    | nil => exact ⟨Nat.zero_le _, Nat.zero_le _, Nat.zero_le _⟩
    | cons d₀ rest =>
      have hcnt : (sortByDate (d₀ :: rest)).countP posDay =
          (d₀ :: rest).countP posDay :=
        (sortByDate_perm (d₀ :: rest)).countP_eq posDay
      have hcur : (calculateStreak today (d₀ :: rest)).current ≤
          (d₀ :: rest).countP posDay := by
        have h1 := currentStreakLoop_le_countP today
          (sortByDate (d₀ :: rest)).reverse 0
        have h2 : (sortByDate (d₀ :: rest)).reverse.countP posDay =
            (sortByDate (d₀ :: rest)).countP posDay :=
          (sortByDate (d₀ :: rest)).reverse_perm.countP_eq posDay
        show currentStreakLoop today (sortByDate (d₀ :: rest)).reverse 0 ≤ _
        omega
      refine ⟨hcur, ?_, ?_⟩
      · have := (d₀ :: rest).countP_le_length posDay
        omega
      · have h3 := calculateStreak_max_eq today (d₀ :: rest)
        have h4 := longestPosRun_le_countP (sortByDate (d₀ :: rest))
        omega
  · intro hz
    cases days with
    | nil => rfl
    | cons d₀ rest =>
      have hzs : ∀ e ∈ sortByDate (d₀ :: rest), e.contributionCount = 0 :=
        fun e he => hz e ((sortByDate_perm (d₀ :: rest)).mem_iff.mp he)
      have hzr : ∀ e ∈ (sortByDate (d₀ :: rest)).reverse,
          e.contributionCount = 0 :=
        fun e he => hzs e (List.mem_reverse.mp he)
      show ({ current := currentStreakLoop today (sortByDate (d₀ :: rest)).reverse 0,
              max := maxStreakLoop (sortByDate (d₀ :: rest)) 0 0 } : StreakSummary) = _
      rw [currentStreakLoop_allZero today (sortByDate (d₀ :: rest)).reverse 0 hzr,
        maxStreakLoop_allZero (sortByDate (d₀ :: rest)) 0 0 hzs]

/-- C10, witness: the bounds and the all-zero clause at the concrete two-day
all-zero input with today = 100. -/
theorem spec2proof_C10_witness :
    calculateStreak 100 [⟨100, 0⟩, ⟨99, 0⟩] = { current := 0, max := 0 }
      ∧ (calculateStreak 100 [⟨100, 0⟩, ⟨99, 0⟩]).current ≤
          ([⟨100, 0⟩, ⟨99, 0⟩] : List ContributionDay).length :=
  ⟨(spec2proof_C10 100 [⟨100, 0⟩, ⟨99, 0⟩]).2 (by decide),
   (spec2proof_C10 100 [⟨100, 0⟩, ⟨99, 0⟩]).1.2.1⟩

/-- C6, counterexample: `max >= current` fails on the three-entry input with
a positive and a zero entry both dated yesterday and a positive entry dated
today (today = 100): the zero entry sits inside the grace window, so the
backward scan counts both positives (`current = 2`) while positionally they
are separated by the zero entry (`max = 1`). -/
theorem spec2proof_C6_counterexample :
    (calculateStreak 100 duplicateDays).max <
      (calculateStreak 100 duplicateDays).current := by decide

/-- C6, amended: `max ≥ current` holds for every input in which every
zero-count entry lies outside the grace window (whole-day offset from today
at least 2).  In general a zero-count entry inside the grace window placed
between positive-count entries lets `current` exceed `max`, as the
counterexample shows. -/
theorem spec2proof_C6 : ∀ (today : Int) (days : List ContributionDay),
    (∀ d ∈ days, d.contributionCount = 0 → 2 ≤ today - d.date) →
    (calculateStreak today days).current ≤ (calculateStreak today days).max := by
  intro today days h
  cases days with
  | nil => exact Nat.le_refl 0
  | cons d₀ rest =>
    show currentStreakLoop today (sortByDate (d₀ :: rest)).reverse 0 ≤
        maxStreakLoop (sortByDate (d₀ :: rest)) 0 0
    have hmem : ∀ e ∈ (sortByDate (d₀ :: rest)).reverse,
        e.contributionCount = 0 → 2 ≤ today - e.date := by
      intro e he
      exact h e ((sortByDate_perm (d₀ :: rest)).mem_iff.mp (List.mem_reverse.mp he))
    have h1 := currentStreakLoop_le_headRun today (sortByDate (d₀ :: rest)).reverse 0 hmem
    have h2 : headRunLen (sortByDate (d₀ :: rest)).reverse =
        (maxScan (sortByDate (d₀ :: rest)) (0, 0)).1 := by
      have hrr := maxScan_fst_reverse (sortByDate (d₀ :: rest)).reverse
      rw [List.reverse_reverse] at hrr
      exact hrr.symm
    have h3 := maxScan_fst_le_snd (sortByDate (d₀ :: rest)) (0, 0) (Nat.le_refl 0)
    rw [maxStreakLoop_eq_maxScan]
    omega

/-- C6, witness: the amended theorem applied to the one-entry input with a
positive count dated today, whose zero-count entries (there are none)
vacuously satisfy the offset condition. -/
theorem spec2proof_C6_witness :
    (calculateStreak 100 [⟨100, 1⟩]).current ≤ (calculateStreak 100 [⟨100, 1⟩]).max :=
  spec2proof_C6 100 [⟨100, 1⟩] (by decide)

/-- C2: the max streak equals the length of the longest run of
positive-count entries consecutive by position in the date-ascending-sorted
list (the second component of `longestPosRun`), it does not depend on the
current date, and on the input with a historical run of 10 positive entries,
then zeros, then a run of 2 positive entries ending today the result is
`{ current := 2, max := 10 }`. -/
theorem spec2proof_C2 :
    (∀ (t₁ t₂ : Int) (days : List ContributionDay),
        (calculateStreak t₁ days).max = (calculateStreak t₂ days).max)
    ∧ (∀ (today : Int) (days : List ContributionDay),
        (calculateStreak today days).max = (longestPosRun (sortByDate days)).2)
    ∧ calculateStreak 100 historyDays = { current := 2, max := 10 } :=
  ⟨fun t₁ t₂ days => by
      rw [calculateStreak_max_eq t₁ days, calculateStreak_max_eq t₂ days],
   calculateStreak_max_eq,
   by decide⟩

